import Mathlib

/-!
Shallow embedding of the spreadsheet layout-inference engine of
`extract_images_all.py` (package segmentation, row geometry, merge repair,
forward fill, image linking, record emission), together with proofs about the
claims of its specification.

Conventions of the embedding:
* A worksheet cell value is `Option CellVal`: `none` is Python `None`
  (a missing cell), `CellVal.s` a string cell, `CellVal.n` a numeric cell
  (openpyxl delivers numbers as int/float; we carry them as exact rationals).
  Exotic scalar types (bool, datetime) are not needed by any claim.
* Mutation of the worksheet is modelled by explicit state passing: functions
  that write cells take and return a `Grid`.
* Python floats are modelled by exact rationals plus tagged infinities/NaN;
  IEEE rounding of decimal literals is not modelled (no claim depends on it),
  but overflow of the decimal grammar to an infinity is, because `int(inf)`
  raises an error that the source code does not catch.
-/

/-- A scalar cell value as delivered by openpyxl with `data_only=True`:
either a string cell or a numeric cell. -/
inductive CellVal where
  | s (v : String)
  | n (v : ℚ)
deriving DecidableEq

/-- Python `str(value)` for a cell value. String cells are returned verbatim;
numeric cells become their decimal text (for integral values this agrees with
Python exactly; for non-integral values Python formats differently, which no
claim depends on, since all uses below are blankness tests, lower-cased keyword
containment over alphabetic keywords, and `#...`-token comparisons). -/
def cellStr : CellVal → String
  | .s t => t
  | .n q => if q.den = 1 then toString q.num else toString q.num ++ "/" ++ toString q.den

/-- Python `s.strip()` (and Lean's `String.trim`), written over the character
list so that it evaluates inside the kernel. Python also strips a few rare
control characters that Lean's `Char.isWhitespace` omits; no claim uses them. -/
def strTrim (s : String) : String :=
  String.mk (((s.data.dropWhile Char.isWhitespace).reverse.dropWhile Char.isWhitespace).reverse)

/-- Python `s.lower()` over the character list (ASCII, which is all the
source's keyword comparisons need). -/
def strLower (s : String) : String :=
  String.mk (s.data.map Char.toLower)

/-- The blankness test used throughout the source:
`value is None or str(value).strip() == ""`. -/
def isBlankOpt (v : Option CellVal) : Bool :=
  match v with
  | none => true
  | some cv => strTrim (cellStr cv) == ""

/-- Containment of `pat` in `l` as a contiguous sublist (Python's `in` on
strings), by scanning every suffix. -/
def containsSubstrList (pat : List Char) : List Char → Bool
  | [] => pat.isPrefixOf ([] : List Char)
  | c :: t => pat.isPrefixOf (c :: t) || containsSubstrList pat t

/-- Python `pat in s` for strings. -/
def containsSubstr (s pat : String) : Bool :=
  containsSubstrList pat.toList s.toList

/-- HEADER_KEYWORDS from the source (compared lower-cased). -/
def HEADER_KEYWORDS : List String := ["part number", "description", "qty"]

/-- EXCLUDED_PACKAGE_TOKENS from the source: spreadsheet error values that
must not become package names. -/
def EXCLUDED_PACKAGE_TOKENS : List String :=
  ["#unknown!", "#value!", "#div/0!", "#ref!", "#name?", "#null!", "#num!", "#n/a"]

/-- The result of Python `float(text)`: a finite value, an infinity, or NaN. -/
inductive PyFloat where
  | finite (q : ℚ)
  | inf
  | ninf
  | nan
deriving DecidableEq

/-- Value of a list of decimal digit characters. -/
def digitsVal (cs : List Char) : Nat :=
  cs.foldl (fun a c => a * 10 + (c.toNat - '0'.toNat)) 0

/-- Exponent digits of a float literal: all remaining characters must be
digits and at least one digit must be present; the result is the signed
exponent. -/
def parseExpNum (cs : List Char) (neg : Bool) : Option Int :=
  let ds := cs.takeWhile Char.isDigit
  let r := cs.dropWhile Char.isDigit
  if ds = [] ∨ r ≠ [] then none
  else some (if neg then -(digitsVal ds : Int) else (digitsVal ds : Int))

/-- Optional sign of a float literal's exponent. -/
def parseExponentSign (cs : List Char) : Option Int :=
  match cs with
  | '+' :: r => parseExpNum r false
  | '-' :: r => parseExpNum r true
  | r => parseExpNum r false

/-- Tail of a float literal after the mantissa: empty (exponent 0), or an
exponent part introduced by `e` (input is already lower-cased). -/
def parseExponentTail (cs : List Char) : Option Int :=
  match cs with
  | [] => some 0
  | 'e' :: r => parseExponentSign r
  | _ => none

/-- Unsigned decimal float literal: `digits`, `digits.digits`, `.digits` or
`digits.`, with at least one digit, then an optional exponent. The result is
`(mantissa digits as a natural, number of fractional digits, exponent)`, so
the value is `mant / 10^scale * 10^e`. Underscore digit separators (accepted
by Python since 3.6) are not modelled; no claim uses them. -/
def parseDecimal (cs : List Char) : Option (Nat × Nat × Int) :=
  let ip := cs.takeWhile Char.isDigit
  let r1 := cs.dropWhile Char.isDigit
  match r1 with
  | '.' :: r2 =>
    let fp := r2.takeWhile Char.isDigit
    let r3 := r2.dropWhile Char.isDigit
    if ip = [] ∧ fp = [] then none
    else
      match parseExponentTail r3 with
      | none => none
      | some e => some (digitsVal (ip ++ fp), fp.length, e)
  | _ =>
    if ip = [] then none
    else
      match parseExponentTail r1 with
      | none => none
      | some e => some (digitsVal ip, 0, e)

/-- The exact rational value of a parsed decimal literal
`(-1)^neg * mant / 10^scale * 10^e`, assembled with integer arithmetic. -/
def decimalToRat (mant scale : Nat) (e : Int) (neg : Bool) : ℚ :=
  let d : Int := e - (scale : Int)
  if 0 ≤ d then
    let mag : Nat := mant * 10 ^ d.toNat
    mkRat (if neg then -(mag : Int) else (mag : Int)) 1
  else
    mkRat (if neg then -(mant : Int) else (mant : Int)) (10 ^ (-d).toNat)

/-- Numerator bound for double overflow, `2^1024` written as a numeral:
finite parsed magnitudes at least this large overflow to an infinity
(Python `float("1e400")` is `inf`, without an exception). The exact IEEE
round-to-infinity threshold is marginally below `2^1024`; no claim probes
the boundary. -/
def floatOverflowNum : Int := 179769313486231590772930519078902473361797697894230657273430081157732675805500963132708477322407536021120113879871393357658789768814416622492847430639474124377767893424865485276302219601246094119453082952085005768838150682342462881473913110540827237163350510684586298239947245938479716304835356329624224137216

/-- Does a finite rational overflow the positive double range. -/
def overflowsPos (q : ℚ) : Bool := floatOverflowNum * (q.den : Int) ≤ q.num

/-- Does a finite rational overflow the negative double range. -/
def overflowsNeg (q : ℚ) : Bool := q.num ≤ -(floatOverflowNum * (q.den : Int))

/-- Body of a float literal after the optional sign (already lower-cased):
the keywords `inf`/`infinity`/`nan`, or a decimal literal with overflow to
an infinity. -/
def pyFloatCore (cs : List Char) (neg : Bool) : Option PyFloat :=
  if cs = ['i', 'n', 'f'] ∨ cs = ['i', 'n', 'f', 'i', 'n', 'i', 't', 'y'] then
    some (if neg then .ninf else .inf)
  else if cs = ['n', 'a', 'n'] then some .nan
  else
    match parseDecimal cs with
    | none => none
    | some (mant, scale, e) =>
      let q := decimalToRat mant scale e neg
      if overflowsPos q then some .inf
      else if overflowsNeg q then some .ninf
      else some (.finite q)

/-- Python `float(s)` on an already-stripped string (the source always strips
before converting): `none` models a `ValueError`. -/
def pyFloatParse (s : String) : Option PyFloat :=
  match (strLower s).data with
  | [] => none
  | c :: rest =>
    if c = '+' then pyFloatCore rest false
    else if c = '-' then pyFloatCore rest true
    else pyFloatCore (c :: rest) false

/-- Python `int(f)` on a finite float: truncation toward zero. -/
def ratTrunc (q : ℚ) : Int :=
  if 0 ≤ q.num then ((q.num.toNat / q.den : Nat) : Int)
  else -((q.num.natAbs / q.den : Nat) : Int)

/-- The one Python exception that escapes the source's coercion helper. -/
inductive PyErr where
  | overflowError
deriving DecidableEq

deriving instance DecidableEq for Except

/-- Model of `to_int_or_none(value)`:
`str(value).strip()`, empty gives `None`; `float(text)` failing
(`ValueError`) is caught and gives `None`; `int(f)` on NaN raises
`ValueError`, also caught; for an infinite float, `int(f)` raises
`OverflowError`, which is NOT in the caught `(ValueError, TypeError)` and so
escapes. For a numeric cell, `str(value)` round-trips through `float` to the
same value, so the cell's number is truncated directly. -/
def to_int_or_none : Option CellVal → Except PyErr (Option Int)
  | none => .ok none
  | some v =>
    let text := strTrim (cellStr v)
    if text = "" then .ok none
    else
      match v with
      | .s _ =>
        match pyFloatParse text with
        | none => .ok none
        | some (.finite q) => .ok (some (ratTrunc q))
        | some .nan => .ok none
        | some .inf => .error .overflowError
        | some .ninf => .error .overflowError
      | .n q => .ok (some (ratTrunc q))

/-- A merge rectangle of the worksheet (`min_row`, `max_row`, `min_col`,
`max_col`, all inclusive and 1-based, as in openpyxl). -/
structure Rect where
  min_row : Nat
  max_row : Nat
  min_col : Nat
  max_col : Nat
deriving DecidableEq

/-- Two merge rectangles occupy disjoint cell areas (openpyxl invariant for
the merge set of a worksheet). -/
def Rect.disjoint (a b : Rect) : Prop :=
  a.max_row < b.min_row ∨ b.max_row < a.min_row ∨ a.max_col < b.min_col ∨ b.max_col < a.min_col

/-- Read view of one worksheet: cell values (1-based row/column; merged
non-top cells read `none`, as openpyxl's MergedCell does), dimensions,
explicit row heights in points, the sheet-format default row height, and the
merge ranges. -/
structure Grid where
  cell : Nat → Nat → Option CellVal
  max_row : Nat
  max_col : Nat
  row_height : Nat → Option ℚ
  default_row_height : Option ℚ
  merged_ranges : List Rect

/-- The default row height: `sheet_format.defaultRowHeight or 15` — Python's
`or` replaces both a missing and a zero (falsy) default by 15. -/
def default_row_height_value (g : Grid) : ℚ :=
  match g.default_row_height with
  | none => 15
  | some d => if d = 0 then 15 else d

/-- Effective height of a row: the explicit height when present (an explicit
zero stays zero), else the default. -/
def effective_row_height (g : Grid) (r : Nat) : ℚ :=
  match g.row_height r with
  | none => default_row_height_value g
  | some h => h

/-- Accumulated Y coordinate (in EMU, 12700 per point) after the first `k`
rows; this is the running `acc` of `compute_row_y_map`'s loop. -/
def acc_y (g : Grid) : Nat → ℚ
  | 0 => 0
  | k + 1 => acc_y g k + effective_row_height g (k + 1) * 12700

/-- The loop of `compute_row_y_map` over rows `1..n`: the running accumulator
together with the `top_y` and `bottom_y` dictionaries built so far
(dictionaries are partial maps `Nat → Option ℚ`). -/
def row_y_loop (g : Grid) : Nat → ℚ × (Nat → Option ℚ) × (Nat → Option ℚ)
  | 0 => (0, fun _ => none, fun _ => none)
  | n + 1 =>
    let s := row_y_loop g n
    let acc2 := s.1 + effective_row_height g (n + 1) * 12700
    (acc2,
     fun r => if r = n + 1 then some s.1 else s.2.1 r,
     fun r => if r = n + 1 then some acc2 else s.2.2 r)

/-- Model of `compute_row_y_map(ws)`: the pair of dictionaries
`(top_y, bottom_y)` for rows `1..max_row`. -/
def compute_row_y_map (g : Grid) : (Nat → Option ℚ) × (Nat → Option ℚ) :=
  ((row_y_loop g g.max_row).2.1, (row_y_loop g g.max_row).2.2)

/-- Python falsiness of a cell value (`if not cell_value: continue` in
`find_first_header_row`): missing, empty string, or the number zero. -/
def cellFalsy (v : Option CellVal) : Bool :=
  match v with
  | none => true
  | some (.s t) => t == ""
  | some (.n q) => q == 0

/-- Does one cell make its row a header row: truthy, and its trimmed
lower-cased text contains one of the header keywords. -/
def cell_matches_header (v : Option CellVal) : Bool :=
  match v with
  | none => false
  | some cv =>
    if cellFalsy (some cv) then false
    else HEADER_KEYWORDS.any (fun kw => containsSubstr (strLower (strTrim (cellStr cv))) kw)

/-- Model of `find_first_header_row(ws)`: the first row in `1..max_row` with
a header-keyword cell in any column, else 0. -/
def find_first_header_row (g : Grid) : Nat :=
  match (List.range' 1 g.max_row).find?
      (fun r => (List.range' 1 g.max_col).any (fun c => cell_matches_header (g.cell r c))) with
  | some r => r
  | none => 0

/-- One package section, as built by `build_packages` and enriched by the
later passes. The `uid` and `image_filename` fields of the source are
produced from `uuid4()` and the file system and are outside the value model. -/
structure Package where
  name : String
  start_row : Nat
  end_row : Nat
  y_start : Option ℚ
  y_end : Option ℚ
  images : List Nat
  abs_images : List Nat
  category : Option String
deriving DecidableEq

/-- Decision taken by `build_packages` for one first-column cell: `some name`
when the cell closes the open package and opens a new one with that (trimmed)
name, `none` when the row is skipped (missing cell, header-keyword cell, or
excluded error token). Note that a present but blank cell is NOT skipped:
its trimmed text is the empty string, which matches no keyword and no
excluded token, so it yields `some ""`. -/
def package_name_of_cell (v : Option CellVal) : Option String :=
  match v with
  | none => none
  | some cv =>
    let text := strTrim (cellStr cv)
    let lower := strLower text
    if HEADER_KEYWORDS.any (fun kw => containsSubstr lower kw) then none
    else if EXCLUDED_PACKAGE_TOKENS.contains lower then none
    else some text

/-- Closing the open package `(nm, sr)` at row `er`: `y_start`/`y_end` are
looked up in the `top_y`/`bottom_y` dictionaries, and the image/category
fields start in their initial state. -/
def close_package (tf bf : Nat → Option ℚ) (nm : String) (sr er : Nat) : Package :=
  ⟨nm, sr, er, tf sr, bf er, [], [], none⟩

/-- The scanning loop of `build_packages`: `cur` is the currently open
package (name and start row), `acc` the closed packages so far. -/
def build_packages_loop (g : Grid) (tf bf : Nat → Option ℚ) :
    List Nat → Option (String × Nat) → List Package → List Package
  | [], none, acc => acc
  | [], some (nm, sr), acc => acc ++ [close_package tf bf nm sr g.max_row]
  | r :: rest, cur, acc =>
    match package_name_of_cell (g.cell r 1) with
    | none => build_packages_loop g tf bf rest cur acc
    | some nm =>
      match cur with
      | none => build_packages_loop g tf bf rest (some (nm, r)) acc
      | some (nm0, sr0) =>
        build_packages_loop g tf bf rest (some (nm, r))
          (acc ++ [close_package tf bf nm0 sr0 (r - 1)])

/-- Model of `build_packages(ws, top_y, bottom_y)`: nothing when the header
row is missing (0) or at row 1, else the scan of column 1 from one row above
the header row to the last row. -/
def build_packages (g : Grid) (tf bf : Nat → Option ℚ) : List Package :=
  let header_row := find_first_header_row g
  if header_row ≤ 1 then []
  else
    build_packages_loop g tf bf
      (List.range' (header_row - 1) (g.max_row + 1 - (header_row - 1))) none []

/-- Category of one package: the first row in its range whose column-F
(column 6) cell is a string with non-empty trimmed text gives that trimmed
text (`fill_packages_categories`). -/
def package_category (g : Grid) (pkg : Package) : Option String :=
  (List.range' pkg.start_row (pkg.end_row + 1 - pkg.start_row)).findSome?
    (fun r =>
      match g.cell r 6 with
      | some (.s t) => if strTrim t ≠ "" then some (strTrim t) else none
      | _ => none)

/-- One package after the category pass. -/
def package_with_category (g : Grid) (pkg : Package) : Package :=
  { pkg with category := package_category g pkg }

/-- Model of `fill_packages_categories(ws, packages)`. -/
def fill_packages_categories (g : Grid) (packages : List Package) : List Package :=
  packages.map (package_with_category g)

/-- Is this cell a "No"-column header: a string cell whose trimmed text is
exactly `#`, or whose trimmed lower-cased text is one of the `no` variants. -/
def cell_matches_no_header (v : Option CellVal) : Bool :=
  match v with
  | some (.s t) =>
    let raw := strTrim t
    let lower := strLower raw
    raw == "#" || (lower == "no" || lower == "no." || lower == "no#" || lower == "no:")
  | _ => false

/-- Model of `detect_detail_columns(ws, first_package)`: scan the first
package's row range over columns 2..6 (rows outer, columns inner), take the
first "No"-like header cell, and read off the four detail columns; fail when
the assumed quantity column exceeds the sheet's column count. -/
def detect_detail_columns (g : Grid) (pkg : Package) : Option (Nat × Nat × Nat × Nat) :=
  let cands := (List.range' pkg.start_row (pkg.end_row + 1 - pkg.start_row)).flatMap
    (fun r => (List.range' 2 5).map (fun c => (r, c)))
  match cands.find? (fun rc => cell_matches_no_header (g.cell rc.1 rc.2)) with
  | none => none
  | some (_, col_no) =>
    if g.max_col < col_no + 3 then none
    else some (col_no, col_no + 1, col_no + 2, col_no + 3)

/-- Point update of a cell-value function. -/
def set_cell (f : Nat → Nat → Option CellVal) (r c : Nat) (v : Option CellVal) :
    Nat → Nat → Option CellVal :=
  fun r2 c2 => if r2 = r ∧ c2 = c then v else f r2 c2

/-- Writing one value into every row `a..b` of one column (the propagation
loop of `flatten_vertical_merges_in_column`, as a single function update). -/
def write_rows_in_column (f : Nat → Nat → Option CellVal) (col a b : Nat) (v : CellVal) :
    Nat → Nat → Option CellVal :=
  fun r c => if c = col ∧ a ≤ r ∧ r ≤ b then some v else f r c

/-- Processing of one snapshot merge range by
`flatten_vertical_merges_in_column`: a vertical merge confined to the target
column is dissolved (removed from the merge set; cell reads are unchanged by
the unmerge itself, since merged non-top cells already read `none`), and its
top value, when non-blank, is written into every row it spanned. -/
def flatten_merge_step (col : Nat) (st : Grid) (m : Rect) : Grid :=
  if m.min_col = col ∧ m.max_col = col ∧ m.min_row < m.max_row then
    let value := st.cell m.min_row col
    let st1 := { st with merged_ranges := st.merged_ranges.erase m }
    match value with
    | none => st1
    | some cv =>
      if strTrim (cellStr cv) == "" then st1
      else { st1 with cell := write_rows_in_column st1.cell col m.min_row m.max_row cv }
  else st

/-- Model of `flatten_vertical_merges_in_column(ws, col)`: iterate over a
snapshot of the merge list (the source copies `ws.merged_cells.ranges`
before mutating). -/
def flatten_vertical_merges_in_column (g : Grid) (col : Nat) : Grid :=
  g.merged_ranges.foldl (flatten_merge_step col) g

/-- The loop of `forward_fill_column_in_range`: walk the given rows carrying
`last_value`; a non-blank cell becomes the new `last_value`, a blank cell is
overwritten with `last_value` when one exists. -/
def forward_fill_loop (col : Nat) (f : Nat → Nat → Option CellVal) (last : Option CellVal) :
    List Nat → Nat → Nat → Option CellVal
  | [] => f
  | r :: rest =>
    let v := f r col
    if isBlankOpt v = false then forward_fill_loop col f v rest
    else
      match last with
      | none => forward_fill_loop col f none rest
      | some lv => forward_fill_loop col (set_cell f r col (some lv)) (some lv) rest

/-- Model of `forward_fill_column_in_range(ws, col, start_row, end_row)`. -/
def forward_fill_column_in_range (g : Grid) (col start_row end_row : Nat) : Grid :=
  { g with cell := forward_fill_loop col g.cell none (List.range' start_row (end_row + 1 - start_row)) }

/-- The scanning loop of `find_data_rows_range_for_package`: `ds` is set by
the first row with a part or description value, `de` by every such row. -/
def find_data_rows_loop (g : Grid) (col_part col_desc : Nat) :
    List Nat → Option Nat → Option Nat → Option Nat × Option Nat
  | [], ds, de => (ds, de)
  | r :: rest, ds, de =>
    if isBlankOpt (g.cell r col_part) = false ∨ isBlankOpt (g.cell r col_desc) = false then
      find_data_rows_loop g col_part col_desc rest
        (match ds with | none => some r | some a => some a) (some r)
    else find_data_rows_loop g col_part col_desc rest ds de

/-- Model of `find_data_rows_range_for_package(ws, pkg, col_part, col_desc)`. -/
def find_data_rows_range_for_package (g : Grid) (pkg : Package) (col_part col_desc : Nat) :
    Option (Nat × Nat) :=
  match find_data_rows_loop g col_part col_desc
      (List.range' pkg.start_row (pkg.end_row + 1 - pkg.start_row)) none none with
  | (some a, some b) => some (a, b)
  | _ => none

/-- Per-package part of `normalize_merged_detail_cells_for_all_packages`:
determine each package's data-row range and forward-fill the No and QTY
columns inside it, threading the grid state; the returned list is aligned
with the package list (`none` marks a package without data rows, mirroring
the absent dictionary key of the source). -/
def normalize_packages_loop (col_no col_qty col_part col_desc : Nat) :
    Grid → List Package → Grid × List (Option (Nat × Nat))
  | g, [] => (g, [])
  | g, pkg :: rest =>
    match find_data_rows_range_for_package g pkg col_part col_desc with
    | none =>
      let s := normalize_packages_loop col_no col_qty col_part col_desc g rest
      (s.1, none :: s.2)
    | some (ds, de) =>
      let ga := forward_fill_column_in_range g col_no ds de
      let gb := forward_fill_column_in_range ga col_qty ds de
      let s := normalize_packages_loop col_no col_qty col_part col_desc gb rest
      (s.1, some (ds, de) :: s.2)

/-- Model of `normalize_merged_detail_cells_for_all_packages`: first flatten
vertical merges of the No and QTY columns sheet-wide, then forward-fill per
package data range. -/
def normalize_merged_detail_cells_for_all_packages (g : Grid) (packages : List Package)
    (col_no col_part col_desc col_qty : Nat) : Grid × List (Option (Nat × Nat)) :=
  let g1 := flatten_vertical_merges_in_column g col_no
  let g2 := flatten_vertical_merges_in_column g1 col_qty
  normalize_packages_loop col_no col_qty col_part col_desc g2 packages

/-- One output record of the engine. The `uid`, image file name and workbook
title of the source's tuple come from `uuid4()`, the file system and the
input path, and are outside the value model; in the no-detail-columns
fallback the detail fields are the blank values. -/
structure OutRow where
  package_name : String
  no : Option Int
  part_no : String
  part_name_and_standard : String
  qty : Option Int
  category : String
deriving DecidableEq

/-- Stringification of a detail cell for the output record:
`str(value).strip()` when present, else the empty string. -/
def opt_str (v : Option CellVal) : String :=
  match v with
  | none => ""
  | some cv => strTrim (cellStr cv)

/-- Processing of one data row by the emission loop of `process_workbook`
(lines 743-777): skip the row when part and description are both blank; skip
it when the sequence number does not coerce to an integer; otherwise emit a
record, with the quantity coercion's failure mapped to a null quantity. An
`OverflowError` escaping either coercion aborts processing. -/
def emit_row (g : Grid) (col_no col_part col_desc col_qty : Nat)
    (pkg_name category : String) (r : Nat) : Except PyErr (Option OutRow) :=
  let part_val := g.cell r col_part
  let desc_val := g.cell r col_desc
  if isBlankOpt part_val = true ∧ isBlankOpt desc_val = true then .ok none
  else
    match to_int_or_none (g.cell r col_no) with
    | .error e => .error e
    | .ok none => .ok none
    | .ok (some n) =>
      match to_int_or_none (g.cell r col_qty) with
      | .error e => .error e
      | .ok q => .ok (some ⟨pkg_name, some n, opt_str part_val, opt_str desc_val, q, category⟩)

/-- The emission loop over a package's data rows. -/
def emit_rows (g : Grid) (col_no col_part col_desc col_qty : Nat)
    (pkg_name category : String) : List Nat → Except PyErr (List OutRow)
  | [] => .ok []
  | r :: rest =>
    match emit_row g col_no col_part col_desc col_qty pkg_name category r with
    | .error e => .error e
    | .ok none => emit_rows g col_no col_part col_desc col_qty pkg_name category rest
    | .ok (some rec) =>
      match emit_rows g col_no col_part col_desc col_qty pkg_name category rest with
      | .error e => .error e
      | .ok l => .ok (rec :: l)

/-- The record a data row yields according to the claim's words ("a row in
that range produces an output record iff its part-identifier or description
cell is non-blank AND its sequence-number cell coerces to an integer;
failure of the quantity coercion does not exclude the row — its record's
quantity field is null instead"); used to compare the emission loop against
the specification. -/
def claimed_row_emission (g : Grid) (col_no col_part col_desc col_qty : Nat)
    (pkg_name category : String) (r : Nat) : Option OutRow :=
  match to_int_or_none (g.cell r col_no) with
  | .ok (some n) =>
    if isBlankOpt (g.cell r col_part) = false ∨ isBlankOpt (g.cell r col_desc) = false then
      some ⟨pkg_name, some n, opt_str (g.cell r col_part), opt_str (g.cell r col_desc),
        (match to_int_or_none (g.cell r col_qty) with | .ok q => q | .error _ => none),
        category⟩
    else none
  | _ => none

/-- The single package-level record emitted per package when detail-column
detection fails. -/
def fallback_package_row (pkg : Package) : OutRow :=
  ⟨pkg.name, none, "", "", none, (pkg.category.getD "")⟩

/-- Emission over all packages paired with their data-row ranges (packages
without a range are skipped, like the absent dictionary keys in the
source). -/
def emit_packages_loop (g : Grid) (col_no col_part col_desc col_qty : Nat) :
    List (Package × Option (Nat × Nat)) → Except PyErr (List OutRow)
  | [] => .ok []
  | (_, none) :: rest => emit_packages_loop g col_no col_part col_desc col_qty rest
  | (pkg, some (ds, de)) :: rest =>
    match emit_rows g col_no col_part col_desc col_qty pkg.name (pkg.category.getD "")
        (List.range' ds (de + 1 - ds)) with
    | .error e => .error e
    | .ok l1 =>
      match emit_packages_loop g col_no col_part col_desc col_qty rest with
      | .error e => .error e
      | .ok l2 => .ok (l1 ++ l2)

/-- The record-producing pipeline of `process_workbook(path)` (image saving,
uid assignment and the output workbook are external I/O outside this value
model; neither affects which records exist nor their modelled fields). -/
def process_workbook_records (g : Grid) : Except PyErr (List OutRow) :=
  let tb := compute_row_y_map g
  match build_packages g tb.1 tb.2 with
  | [] => .ok []
  | p :: rest =>
    let packages2 := fill_packages_categories g (p :: rest)
    match detect_detail_columns g (package_with_category g p) with
    | none => .ok (packages2.map fallback_package_row)
    | some (col_no, col_part, col_desc, col_qty) =>
      let nr := normalize_merged_detail_cells_for_all_packages g packages2
        col_no col_part col_desc col_qty
      emit_packages_loop nr.1 col_no col_part col_desc col_qty (packages2.zip nr.2)

/-- Anchor information of one embedded image, as inspected by
`map_images_to_packages`: a One/TwoCellAnchor with its zero-based `_from`
row; a One/TwoCellAnchor whose `_from` is missing; an AbsoluteAnchor with
`pos.y` and `ext.cy` (EMU); an AbsoluteAnchor with any of those missing; or
any other anchor type. -/
inductive Anchor where
  | cell_anchor (row : Nat)
  | cell_anchor_missing_from
  | absolute_anchor (y cy : ℚ)
  | absolute_anchor_incomplete
  | other_anchor
deriving DecidableEq

/-- Model of `find_package_for_row(packages, row)`: index of the first
package whose inclusive row range contains `row` (the source returns the
package object itself and mutates it; the index expresses that in-place
update). -/
def find_package_for_row (packages : List Package) (row : Nat) : Option Nat :=
  packages.findIdx? (fun pkg => decide (pkg.start_row ≤ row ∧ row ≤ pkg.end_row))

/-- Model of `find_package_for_y_center(packages, center_y)`: index of the
first package whose `[y_start, y_end)` contains the center; packages with a
missing coordinate are skipped. -/
def find_package_for_y_center (packages : List Package) (center_y : ℚ) : Option Nat :=
  packages.findIdx? (fun pkg =>
    match pkg.y_start, pkg.y_end with
    | some ys, some ye => decide (ys ≤ center_y ∧ center_y < ye)
    | _, _ => false)

/-- Processing of image number `idx` by `map_images_to_packages`: resolve
its anchor to a package; a package that already has an image ignores the
extra image entirely, an empty package records the index (in `images` for a
cell anchor, `abs_images` for an absolute anchor); an image resolving to no
package, or with unusable anchor data, joins the unmatched list. -/
def map_images_step (packages : List Package) (unmatched : List Nat) (idx : Nat) :
    Anchor → List Package × List Nat
  | .cell_anchor row0 =>
    match find_package_for_row packages (row0 + 1) with
    | some i =>
      match packages[i]? with
      | some pkg =>
        if pkg.images ≠ [] ∨ pkg.abs_images ≠ [] then (packages, unmatched)
        else (packages.set i { pkg with images := pkg.images ++ [idx] }, unmatched)
      | none => (packages, unmatched)
    | none => (packages, unmatched ++ [idx])
  | .cell_anchor_missing_from => (packages, unmatched ++ [idx])
  | .absolute_anchor y cy =>
    match find_package_for_y_center packages (y + cy / 2) with
    | some i =>
      match packages[i]? with
      | some pkg =>
        if pkg.images ≠ [] ∨ pkg.abs_images ≠ [] then (packages, unmatched)
        else (packages.set i { pkg with abs_images := pkg.abs_images ++ [idx] }, unmatched)
      | none => (packages, unmatched)
    | none => (packages, unmatched ++ [idx])
  | .absolute_anchor_incomplete => (packages, unmatched ++ [idx])
  | .other_anchor => (packages, unmatched ++ [idx])

/-- The enumeration loop of `map_images_to_packages`. -/
def map_images_loop (packages : List Package) (unmatched : List Nat) (idx : Nat) :
    List Anchor → List Package × List Nat
  | [] => (packages, unmatched)
  | a :: rest =>
    let s := map_images_step packages unmatched idx a
    map_images_loop s.1 s.2 (idx + 1) rest

/-- Model of `map_images_to_packages(images, packages)`: the updated package
list and the unmatched-image list. -/
def map_images_to_packages (images : List Anchor) (packages : List Package) :
    List Package × List Nat :=
  map_images_loop packages [] 0 images

/-- All image indices linked to one package, over both anchor kinds. -/
def all_linked (p : Package) : List Nat :=
  p.images ++ p.abs_images

/-- No image index is linked to two different packages of the list. -/
def ImagesDisjoint (ps : List Package) : Prop :=
  ∀ i j (hi : i < ps.length) (hj : j < ps.length), i ≠ j →
    ∀ n, n ∈ all_linked (ps.get ⟨i, hi⟩) → n ∉ all_linked (ps.get ⟨j, hj⟩)

/-- A y-dictionary with no entries, for tests that do not involve geometry. -/
def exTopNone : Nat → Option ℚ := fun _ => none

/-- Cells of a small sheet: packages "A" (row 1) and "B" (row 2), header
keyword "Qty" at row 2 column 2. -/
def exG1cell : Nat → Nat → Option CellVal := fun r c =>
  if r = 1 ∧ c = 1 then some (.s "A")
  else if r = 2 ∧ c = 1 then some (.s "B")
  else if r = 2 ∧ c = 2 then some (.s "Qty")
  else none

/-- A small sheet with two packages. -/
def exG1 : Grid := ⟨exG1cell, 3, 2, fun _ => none, none, []⟩

/-- The first package that segmentation finds in `exG1`. -/
def exPkgA : Package := ⟨"A", 1, 1, none, none, [], [], none⟩

/-- Cells of a sheet whose first column holds "PKG A" at row 1 and a
whitespace-only cell at row 2, with the header row at row 2. -/
def exG2cell : Nat → Nat → Option CellVal := fun r c =>
  if r = 1 ∧ c = 1 then some (.s "PKG A")
  else if r = 2 ∧ c = 1 then some (.s " ")
  else if r = 2 ∧ c = 2 then some (.s "Qty")
  else none

/-- A sheet exercising segmentation on a present-but-blank first-column
cell. -/
def exG2 : Grid := ⟨exG2cell, 3, 2, fun _ => none, none, []⟩

/-- A sheet whose single row has an explicit height of zero. -/
def exG3 : Grid := ⟨fun _ _ => none, 1, 1, fun r => if r = 1 then some 0 else none, none, []⟩

/-- A two-row sheet with default heights only. -/
def exG3w : Grid := ⟨fun _ _ => none, 2, 1, fun _ => none, none, []⟩

/-- A sheet with a vertical merge over rows 1-2 of column 1 whose top cell
holds the non-blank value "V". -/
def exG5 : Grid :=
  ⟨fun r c => if r = 1 ∧ c = 1 then some (.s "V") else none, 3, 1,
   fun _ => none, none, [⟨1, 2, 1, 1⟩]⟩

/-- A sheet with no merge ranges at all. -/
def exG5b : Grid :=
  ⟨fun r c => if r = 1 ∧ c = 1 then some (.s "V") else none, 3, 1,
   fun _ => none, none, []⟩

/-- A sheet with a vertical merge over rows 1-2 of column 1 whose top cell
holds the whitespace-only value " ". -/
def exG5c : Grid :=
  ⟨fun r c => if r = 1 ∧ c = 1 then some (.s " ") else none, 3, 1,
   fun _ => none, none, [⟨1, 2, 1, 1⟩]⟩

/-- A column-2 test sheet for forward fill: "x" at row 1, whitespace at
row 3, "y" at row 4, missing elsewhere. -/
def exG4 : Grid :=
  ⟨fun r c =>
    if c = 2 then
      (if r = 1 then some (.s "x")
       else if r = 3 then some (.s " ")
       else if r = 4 then some (.s "y")
       else none)
    else none, 5, 2, fun _ => none, none, []⟩

/-- A two-row detail range: row 1 has sequence-number text "inf" and part
"X"; row 2 has sequence number "1" and part "Y" (columns No=2, Part=3,
Desc=4, QTY=5). -/
def exG6 : Grid :=
  ⟨fun r c =>
    if r = 1 ∧ c = 2 then some (.s "inf")
    else if r = 1 ∧ c = 3 then some (.s "X")
    else if r = 2 ∧ c = 2 then some (.s "1")
    else if r = 2 ∧ c = 3 then some (.s "Y")
    else none, 2, 5, fun _ => none, none, []⟩

/-- A sheet whose header keyword already occurs in row 1. -/
def exG10 : Grid :=
  ⟨fun r c => if r = 1 ∧ c = 1 then some (.s "Qty here") else none, 3, 2,
   fun _ => none, none, []⟩

/-- A package with no linked images, covering rows 1-5 and the vertical
band [0, 100). -/
def exPkgLink : Package := ⟨"P", 1, 5, some 0, some 100, [], [], none⟩


/-- A package that already carries a linked image, used to exercise the
extra-image branch of the linker. -/
def exPkgOcc : Package := ⟨"P", 1, 5, some 0, some 100, [7], [], none⟩

/-- The running accumulator of the row-Y loop is `acc_y`. -/
theorem row_y_loop_acc (g : Grid) : ∀ n, (row_y_loop g n).1 = acc_y g n := by
  intro n
  induction n with
  | zero => rfl
  | succ k ih => simp [row_y_loop, acc_y, ih]

/-- Dictionary lookups of the row-Y loop: row `r ≤ n` has top coordinate
`acc_y (r-1)` and bottom coordinate `acc_y r`. -/
theorem row_y_loop_get (g : Grid) :
    ∀ n r, 1 ≤ r → r ≤ n →
      (row_y_loop g n).2.1 r = some (acc_y g (r - 1)) ∧
      (row_y_loop g n).2.2 r = some (acc_y g r) := by
  intro n
  induction n with
  | zero => intro r h1 h2; omega
  | succ k ih =>
    intro r h1 h2
    by_cases hr : r = k + 1
    · subst hr
      constructor
      · simp [row_y_loop, row_y_loop_acc]
      · simp [row_y_loop, row_y_loop_acc, acc_y]
    · have hrk : r ≤ k := by omega
      have hih := ih r h1 hrk
      constructor
      · simpa [row_y_loop, hr] using hih.1
      · simpa [row_y_loop, hr] using hih.2

/-- C3 (amended): the row geometry map is contiguous — `bottom_y[r]` equals
`top_y[r+1]` for every row — and `top_y[r] < bottom_y[r]` holds for every
row whose effective height is positive. (The strict inequality claimed for
arbitrary heights fails for an explicit zero-height row, where both
coordinates coincide; the default height is always positive because a falsy
sheet default is replaced by 15.) -/
theorem C3_row_geometry_amended :
    (∀ g r, 1 ≤ r → r < g.max_row →
      (compute_row_y_map g).2 r = (compute_row_y_map g).1 (r + 1)) ∧
    (∀ g r t b, 1 ≤ r → r ≤ g.max_row → 0 < effective_row_height g r →
      (compute_row_y_map g).1 r = some t → (compute_row_y_map g).2 r = some b → t < b) := by
  constructor
  · intro g r h1 h2
    have hb := (row_y_loop_get g g.max_row r h1 (le_of_lt h2)).2
    have ht := (row_y_loop_get g g.max_row (r + 1) (by omega) (by omega)).1
    simp only [compute_row_y_map]
    rw [hb, ht]
    simp
  · intro g r t b h1 h2 hh ht hb
    cases r with
    | zero => omega
    | succ k =>
      have hg := row_y_loop_get g g.max_row (k + 1) h1 h2
      simp only [compute_row_y_map] at ht hb
      rw [hg.1] at ht
      rw [hg.2] at hb
      have ht2 : t = acc_y g k := by simpa using ht.symm
      have hb2 : b = acc_y g (k + 1) := by simpa using hb.symm
      rw [ht2, hb2, acc_y]
      have : 0 < effective_row_height g (k + 1) * 12700 := by positivity
      linarith

/-- C3 counterexample: on a sheet whose single row has an explicit height of
zero, `top_y[1]` and `bottom_y[1]` coincide, so the claimed strict
inequality `top_y[r] < bottom_y[r]` is false. -/
theorem C3_row_geometry_counterexample :
    ¬ ∃ t b : ℚ, (compute_row_y_map exG3).1 1 = some t ∧
      (compute_row_y_map exG3).2 1 = some b ∧ t < b := by
  rintro ⟨t, b, h1, h2, h3⟩
  simp [compute_row_y_map, row_y_loop, effective_row_height, exG3,
    default_row_height_value] at h1 h2
  rw [← h1, ← h2] at h3
  exact lt_irrefl 0 h3

/-- Witness for C3 on a concrete two-row sheet with default heights. -/
theorem C3_row_geometry_amended_witness :
    (compute_row_y_map exG3w).2 1 = (compute_row_y_map exG3w).1 2 ∧
      (0 : ℚ) < 0 + 15 * 12700 :=
  ⟨C3_row_geometry_amended.1 exG3w 1 (by decide) (by decide),
   C3_row_geometry_amended.2 exG3w 1 0 (0 + 15 * 12700) (by decide) (by decide)
     (by decide) rfl rfl⟩

/-- Auxiliary: in a chain of sections whose consecutive members satisfy
`end_row + 1 = start_row` and whose members all satisfy
`start_row ≤ end_row`, the head ends strictly before every later member
starts. -/
theorem chain_head_bound :
    ∀ (p : Package) (t : List Package),
      List.Chain' (fun a b => a.end_row + 1 = b.start_row) (p :: t) →
      (∀ x ∈ p :: t, x.start_row ≤ x.end_row) →
      ∀ q ∈ t, p.end_row < q.start_row := by
  intro p t
  induction t generalizing p with
  | nil => simp
  | cons q t2 ih =>
    intro hc hs r hr
    have hpq : p.end_row + 1 = q.start_row := (List.chain'_cons.1 hc).1
    rcases List.mem_cons.1 hr with hr1 | hr2
    · subst hr1; omega
    · have hq := ih q (List.chain'_cons.1 hc).2 (fun x hx => hs x (by simp at hx ⊢; tauto)) r hr2
      have hqq : q.start_row ≤ q.end_row := hs q (by simp)
      omega

/-- Auxiliary: a consecutive-sections chain with `start_row ≤ end_row`
everywhere is pairwise ordered and non-overlapping. -/
theorem chain_end_lt_start :
    ∀ l : List Package,
      List.Chain' (fun a b => a.end_row + 1 = b.start_row) l →
      (∀ p ∈ l, p.start_row ≤ p.end_row) →
      List.Pairwise (fun a b => a.end_row < b.start_row) l := by
  intro l
  induction l with
  | nil => simp
  | cons p t ih =>
    intro hc hs
    exact List.Pairwise.cons (chain_head_bound p t hc hs)
      (ih hc.tail (fun x hx => hs x (by simp [hx])))

/-- Auxiliary: appending one section to a chain whose last member ends just
before the new section starts keeps the chain. -/
theorem chain_append_single (l : List Package) (x : Package)
    (hc : List.Chain' (fun a b => a.end_row + 1 = b.start_row) l)
    (hl : ∀ hne : l ≠ [], (l.getLast hne).end_row + 1 = x.start_row) :
    List.Chain' (fun a b => a.end_row + 1 = b.start_row) (l ++ [x]) := by
  rw [List.chain'_append]
  refine ⟨hc, by simp, ?_⟩
  intro a ha b hb
  cases l with
  | nil => simp at ha
  | cons h t =>
    rw [List.getLast?_eq_getLast _ (by simp)] at ha
    simp at ha hb
    rw [← ha, ← hb]
    exact hl (by simp)

/-- Invariant of the segmentation loop: scanning rows `r0 .. max_row` from a
well-formed partial state produces a consecutive chain of sections with
`start_row ≤ end_row`, each opened by a qualifying first-column cell bearing
its name, the last one closed at the sheet's final row. -/
theorem build_loop_spec (g : Grid) (tf bf : Nat → Option ℚ) :
    ∀ (n r0 : Nat) (cur : Option (String × Nat)) (acc : List Package),
      r0 + n = g.max_row + 1 →
      List.Chain' (fun a b => a.end_row + 1 = b.start_row) acc →
      (∀ p ∈ acc,
        p.start_row ≤ p.end_row ∧ package_name_of_cell (g.cell p.start_row 1) = some p.name) →
      (cur = none → acc = []) →
      (∀ nm sr, cur = some (nm, sr) →
        sr < r0 ∧ package_name_of_cell (g.cell sr 1) = some nm ∧
        ∀ hne : acc ≠ [], (acc.getLast hne).end_row + 1 = sr) →
      List.Chain' (fun a b => a.end_row + 1 = b.start_row)
        (build_packages_loop g tf bf (List.range' r0 n) cur acc) ∧
      (∀ p ∈ build_packages_loop g tf bf (List.range' r0 n) cur acc,
        p.start_row ≤ p.end_row ∧ package_name_of_cell (g.cell p.start_row 1) = some p.name) ∧
      (∀ hne : build_packages_loop g tf bf (List.range' r0 n) cur acc ≠ [],
        ((build_packages_loop g tf bf (List.range' r0 n) cur acc).getLast hne).end_row
          = g.max_row) := by
  intro n
  induction n with
  | zero =>
    intro r0 cur acc hn hchain hmem hnone hcur
    match cur with
    | none =>
      have hacc : acc = [] := hnone rfl
      subst hacc
      simp [build_packages_loop]
    | some (nm, sr) =>
      obtain ⟨hsr, hname, hlast⟩ := hcur nm sr rfl
      have hEq : build_packages_loop g tf bf (List.range' r0 0) (some (nm, sr)) acc
          = acc ++ [close_package tf bf nm sr g.max_row] := by
        simp [build_packages_loop]
      rw [hEq]
      refine ⟨?_, ?_, ?_⟩
      · exact chain_append_single acc _ hchain (by
          intro hne
          simpa [close_package] using hlast hne)
      · intro p hp
        rcases List.mem_append.1 hp with hp | hp
        · exact hmem p hp
        · simp at hp
          subst hp
          refine ⟨by simp only [close_package]; omega, by simpa [close_package] using hname⟩
      · intro hne
        simp [List.getLast_append, close_package]
  | succ k ih =>
    intro r0 cur acc hn hchain hmem hnone hcur
    rw [List.range'_succ]
    cases hpc : package_name_of_cell (g.cell r0 1) with
    | none =>
      have H := ih (r0 + 1) cur acc (by omega) hchain hmem hnone (by
        intro nm sr heq
        obtain ⟨h1, h2, h3⟩ := hcur nm sr heq
        exact ⟨by omega, h2, h3⟩)
      simpa only [build_packages_loop, hpc] using H
    | some nm =>
      match cur with
      | none =>
        have hacc : acc = [] := hnone rfl
        subst hacc
        have H := ih (r0 + 1) (some (nm, r0)) [] (by omega) (by simp) (by simp) (by simp) (by
          intro nm2 sr2 heq
          injection heq with heq2
          injection heq2 with hnm hsr
          subst hnm; subst hsr
          exact ⟨by omega, hpc, by simp⟩)
        simpa only [build_packages_loop, hpc] using H
      | some (nm0, sr0) =>
        obtain ⟨hsr0, hname0, hlast0⟩ := hcur nm0 sr0 rfl
        have H := ih (r0 + 1) (some (nm, r0))
          (acc ++ [close_package tf bf nm0 sr0 (r0 - 1)]) (by omega)
          (chain_append_single acc _ hchain (by
            intro hne
            simpa [close_package] using hlast0 hne))
          (by
            intro p hp
            rcases List.mem_append.1 hp with hp | hp
            · exact hmem p hp
            · simp at hp
              subst hp
              exact ⟨by simp only [close_package]; omega,
                by simpa [close_package] using hname0⟩)
          (by simp)
          (by
            intro nm2 sr2 heq
            injection heq with heq2
            injection heq2 with hnm hsr
            subst hnm; subst hsr
            refine ⟨by omega, hpc, ?_⟩
            intro hne
            simp [List.getLast_append, close_package]
            omega)
        simpa only [build_packages_loop, hpc] using H

/-- The detected header row is either 0 (absent) or a row of the sheet. -/
theorem find_first_header_row_range (g : Grid) :
    find_first_header_row g = 0 ∨
      (1 ≤ find_first_header_row g ∧ find_first_header_row g ≤ g.max_row) := by
  unfold find_first_header_row
  cases hf : (List.range' 1 g.max_row).find?
      (fun r => (List.range' 1 g.max_col).any (fun c => cell_matches_header (g.cell r c))) with
  | none => exact Or.inl rfl
  | some r =>
    have hm := List.mem_of_find?_eq_some hf
    have hb := List.mem_range'_1.1 hm
    right
    show 1 ≤ r ∧ r ≤ g.max_row
    omega

/-- C1: the sections produced by segmentation are pairwise non-overlapping
and ordered by `start_row` ascending; consecutive sections satisfy
`end_row + 1 = start_row` (each qualifying cell at row `r` closes the open
section at `r - 1` and opens a new one at `r`), every section's `start_row`
is a qualifying first-column cell carrying the section's name and satisfies
`start_row ≤ end_row`, and the last section is closed at the sheet's final
row. -/
theorem C1_sections_ordered (g : Grid) (tf bf : Nat → Option ℚ) :
    List.Pairwise (fun a b => a.end_row < b.start_row) (build_packages g tf bf) ∧
    List.Chain' (fun a b => a.end_row + 1 = b.start_row) (build_packages g tf bf) ∧
    (∀ p ∈ build_packages g tf bf,
      p.start_row ≤ p.end_row ∧ package_name_of_cell (g.cell p.start_row 1) = some p.name) ∧
    (∀ hne : build_packages g tf bf ≠ [],
      ((build_packages g tf bf).getLast hne).end_row = g.max_row) := by
  by_cases hh : find_first_header_row g ≤ 1
  · have hb : build_packages g tf bf = [] := by simp [build_packages, hh]
    rw [hb]
    refine ⟨by simp, by simp, by simp, ?_⟩
    intro hne
    simp at hne
  · have hrange := find_first_header_row_range g
    have hle : find_first_header_row g ≤ g.max_row := by
      rcases hrange with h0 | ⟨_, h2⟩
      · omega
      · exact h2
    have hb : build_packages g tf bf
        = build_packages_loop g tf bf
            (List.range' (find_first_header_row g - 1)
              (g.max_row + 1 - (find_first_header_row g - 1))) none [] := by
      simp [build_packages, hh]
    have H := build_loop_spec g tf bf
      (g.max_row + 1 - (find_first_header_row g - 1)) (find_first_header_row g - 1)
      none [] (by omega) (by simp) (by simp) (by simp) (by simp)
    rw [hb]
    exact ⟨chain_end_lt_start _ H.1 (fun p hp => (H.2.1 p hp).1), H⟩

/-- Witness for C1 on a concrete sheet with two sections. -/
theorem C1_sections_ordered_witness :
    exPkgA.start_row ≤ exPkgA.end_row ∧
      package_name_of_cell (exG1.cell exPkgA.start_row 1) = some exPkgA.name :=
  (C1_sections_ordered exG1 exTopNone exTopNone).2.2.1 exPkgA (by decide)

/-- C2 counterexample: a whitespace-only first-column cell (row 2 of `exG2`)
is blank but present, and the segmenter does act on it: it closes the open
section "PKG A" at row 1 and opens a new section named by the empty string
at row 2, refuting the claim that blank cells cause no action. -/
theorem C2_blank_cell_counterexample :
    build_packages exG2 exTopNone exTopNone
      = [⟨"PKG A", 1, 1, none, none, [], [], none⟩, ⟨"", 2, 3, none, none, [], [], none⟩] := by
  decide

/-- C2 (amended): only a missing (`None`) first-column cell is skipped with
no action; a present but blank cell — empty or whitespace-only text — closes
the currently open section at the previous row and opens a new section at
that row whose name is the empty string. -/
theorem C2_blank_cells_amended :
    (∀ (g : Grid) (tf bf : Nat → Option ℚ) (r : Nat) (rest : List Nat)
        (cur : Option (String × Nat)) (acc : List Package),
      g.cell r 1 = none →
      build_packages_loop g tf bf (r :: rest) cur acc
        = build_packages_loop g tf bf rest cur acc) ∧
    (∀ (g : Grid) (tf bf : Nat → Option ℚ) (r : Nat) (rest : List Nat)
        (nm0 : String) (sr0 : Nat) (acc : List Package) (t : String),
      g.cell r 1 = some (.s t) → strTrim t = "" →
      build_packages_loop g tf bf (r :: rest) (some (nm0, sr0)) acc
        = build_packages_loop g tf bf rest (some ("", r))
            (acc ++ [close_package tf bf nm0 sr0 (r - 1)])) := by
  constructor
  · intro g tf bf r rest cur acc hcell
    simp [build_packages_loop, package_name_of_cell, hcell]
  · intro g tf bf r rest nm0 sr0 acc t hcell ht
    have hq : package_name_of_cell (g.cell r 1) = some "" := by
      rw [hcell]
      simp only [package_name_of_cell, cellStr]
      rw [ht]
      decide
    simp [build_packages_loop, hq]

/-- Witness for C2 (amended) on `exG2`: row 3's missing cell is skipped, and
row 2's whitespace cell closes the open section and opens the empty-named
one. -/
theorem C2_blank_cells_amended_witness :
    (build_packages_loop exG2 exTopNone exTopNone [3] (some ("X", 1)) []
        = build_packages_loop exG2 exTopNone exTopNone [] (some ("X", 1)) []) ∧
    (build_packages_loop exG2 exTopNone exTopNone [2] (some ("PKG A", 1)) []
        = build_packages_loop exG2 exTopNone exTopNone [] (some ("", 2))
            ([] ++ [close_package exTopNone exTopNone "PKG A" 1 (2 - 1)])) :=
  ⟨C2_blank_cells_amended.1 exG2 exTopNone exTopNone 3 [] (some ("X", 1)) [] rfl,
   C2_blank_cells_amended.2 exG2 exTopNone exTopNone 2 [] "PKG A" 1 [] " " rfl rfl⟩

/-- C10: when the first detected header row is row 1 (even though a header
row is present), segmentation yields zero sections, and the whole document
yields zero output records. -/
theorem C10_header_at_row_one (g : Grid) (h : find_first_header_row g = 1) :
    (∀ tf bf, build_packages g tf bf = []) ∧ process_workbook_records g = .ok [] := by
  have hb : ∀ tf bf, build_packages g tf bf = [] := by
    intro tf bf
    simp [build_packages, h]
  refine ⟨hb, ?_⟩
  simp only [process_workbook_records]
  rw [hb]

/-- Witness for C10 on a sheet whose header keyword sits in row 1. -/
theorem C10_header_at_row_one_witness :
    build_packages exG10 exTopNone exTopNone = [] ∧
      process_workbook_records exG10 = .ok [] :=
  ⟨(C10_header_at_row_one exG10 (by decide)).1 exTopNone exTopNone,
   (C10_header_at_row_one exG10 (by decide)).2⟩

/-- A non-blank optional cell value is a `some` that stays non-blank. -/
theorem nonblank_is_some {v : Option CellVal} (h : isBlankOpt v = false) :
    ∃ cv, v = some cv ∧ isBlankOpt (some cv) = false := by
  cases v with
  | none => simp [isBlankOpt] at h
  | some cv => exact ⟨cv, rfl, h⟩

/-- The forward-fill loop never changes a cell outside the visited rows of
the target column. -/
theorem ffill_unchanged (col : Nat) :
    ∀ (rows : List Nat) (f : Nat → Nat → Option CellVal) (last : Option CellVal) (r c : Nat),
      (c ≠ col ∨ r ∉ rows) →
      forward_fill_loop col f last rows r c = f r c := by
  intro rows
  induction rows with
  | nil => intro f last r c _; rfl
  | cons r0 rest ih =>
    intro f last r c h
    have hrc : c ≠ col ∨ r ∉ rest := by
      rcases h with h | h
      · exact Or.inl h
      · exact Or.inr (fun hm => h (List.mem_cons_of_mem r0 hm))
    simp only [forward_fill_loop]
    by_cases hb : isBlankOpt (f r0 col) = false
    · rw [if_pos hb]
      exact ih f (f r0 col) r c hrc
    · rw [if_neg hb]
      cases last with
      | none => exact ih f none r c hrc
      | some lv =>
        show forward_fill_loop col (set_cell f r0 col (some lv)) (some lv) rest r c = f r c
        rw [ih (set_cell f r0 col (some lv)) (some lv) r c hrc]
        have hne : ¬(r = r0 ∧ c = col) := by
          rcases h with h | h
          · exact fun hx => h hx.2
          · exact fun hx => h (hx.1 ▸ List.mem_cons_self r0 rest)
        simp [set_cell, hne]

/-- The forward-fill loop never overwrites a non-blank cell. -/
theorem ffill_nonblank_preserved (col : Nat) :
    ∀ (rows : List Nat) (f : Nat → Nat → Option CellVal) (last : Option CellVal) (r c : Nat),
      isBlankOpt (f r c) = false →
      forward_fill_loop col f last rows r c = f r c := by
  intro rows
  induction rows with
  | nil => intro f last r c _; rfl
  | cons r0 rest ih =>
    intro f last r c h
    simp only [forward_fill_loop]
    by_cases hb : isBlankOpt (f r0 col) = false
    · rw [if_pos hb]
      exact ih f (f r0 col) r c h
    · rw [if_neg hb]
      cases last with
      | none => exact ih f none r c h
      | some lv =>
        have hne : ¬(r = r0 ∧ c = col) := by
          intro hx
          rw [hx.1, hx.2] at h
          exact hb h
        have hf2 : set_cell f r0 col (some lv) r c = f r c := by
          simp [set_cell, hne]
        show forward_fill_loop col (set_cell f r0 col (some lv)) (some lv) rest r c = f r c
        rw [ih (set_cell f r0 col (some lv)) (some lv) r c (by rw [hf2]; exact h), hf2]

/-- A cell all of whose predecessors among the visited rows (itself
included) are blank is left unchanged by the forward-fill loop started with
no carried value, provided the rows are scanned in strictly increasing
order. -/
theorem ffill_blank_prefix (col : Nat) :
    ∀ (rows : List Nat) (f : Nat → Nat → Option CellVal) (r : Nat),
      rows.Pairwise (· < ·) →
      (∀ j ∈ rows, j ≤ r → isBlankOpt (f j col) = true) →
      forward_fill_loop col f none rows r col = f r col := by
  intro rows
  induction rows with
  | nil => intro f r _ _; rfl
  | cons r0 rest ih =>
    intro f r hp hblank
    have hp2 := List.pairwise_cons.1 hp
    simp only [forward_fill_loop]
    by_cases hb : isBlankOpt (f r0 col) = false
    · rw [if_pos hb]
      have hr0r : ¬ r0 ≤ r := by
        intro hle
        rw [hblank r0 (List.mem_cons_self r0 rest) hle] at hb
        exact absurd hb (by decide)
      refine ffill_unchanged col rest f (f r0 col) r col (Or.inr ?_)
      intro hm
      have : r0 < r := hp2.1 r hm
      omega
    · rw [if_neg hb]
      exact ih f r hp2.2 (fun j hj hle => hblank j (List.mem_cons_of_mem r0 hj) hle)

/-- The forward-fill loop is idempotent when started from a valid carried
value (none, or a non-blank value) over duplicate-free rows. -/
theorem ffill_idempotent (col : Nat) :
    ∀ (rows : List Nat) (f : Nat → Nat → Option CellVal) (last : Option CellVal),
      rows.Nodup →
      (last = none ∨ ∃ lv, last = some lv ∧ isBlankOpt (some lv) = false) →
      forward_fill_loop col (forward_fill_loop col f last rows) last rows
        = forward_fill_loop col f last rows := by
  intro rows
  induction rows with
  | nil => intro f last _ _; rfl
  | cons r0 rest ih =>
    intro f last hnd hv
    have hr0 : r0 ∉ rest := (List.nodup_cons.1 hnd).1
    have hrest : rest.Nodup := (List.nodup_cons.1 hnd).2
    by_cases hb : isBlankOpt (f r0 col) = false
    · have h1 : forward_fill_loop col f last (r0 :: rest)
          = forward_fill_loop col f (f r0 col) rest := by
        simp only [forward_fill_loop]
        rw [if_pos hb]
      have hg : forward_fill_loop col f (f r0 col) rest r0 col = f r0 col :=
        ffill_unchanged col rest f (f r0 col) r0 col (Or.inr hr0)
      rw [h1]
      simp only [forward_fill_loop]
      rw [hg, if_pos hb]
      obtain ⟨cv, hcv, hcvb⟩ := nonblank_is_some hb
      rw [hcv]
      exact ih f (some cv) hrest (Or.inr ⟨cv, rfl, hcvb⟩)
    · cases last with
      | none =>
        have h1 : forward_fill_loop col f none (r0 :: rest)
            = forward_fill_loop col f none rest := by
          simp only [forward_fill_loop]
          rw [if_neg hb]
        have hg : forward_fill_loop col f none rest r0 col = f r0 col :=
          ffill_unchanged col rest f none r0 col (Or.inr hr0)
        rw [h1]
        simp only [forward_fill_loop]
        rw [hg, if_neg hb]
        exact ih f none hrest (Or.inl rfl)
      | some lv =>
        obtain ⟨lv2, heq, hnb⟩ : ∃ lv2, some lv = some lv2 ∧ isBlankOpt (some lv2) = false := by
          rcases hv with h | ⟨lv2, heq, hnb⟩
          · exact absurd h (by simp)
          · exact ⟨lv2, heq, hnb⟩
        injection heq with heq2
        subst heq2
        have h1 : forward_fill_loop col f (some lv) (r0 :: rest)
            = forward_fill_loop col (set_cell f r0 col (some lv)) (some lv) rest := by
          simp only [forward_fill_loop]
          rw [if_neg hb]
        have hg : forward_fill_loop col (set_cell f r0 col (some lv)) (some lv) rest r0 col
            = some lv := by
          rw [ffill_unchanged col rest (set_cell f r0 col (some lv)) (some lv) r0 col
            (Or.inr hr0)]
          simp [set_cell]
        rw [h1]
        simp only [forward_fill_loop]
        rw [hg, if_pos hnb]
        exact ih (set_cell f r0 col (some lv)) (some lv) hrest (Or.inr ⟨lv, rfl, hnb⟩)

/-- C4: forward-fill over a fixed column and row range is idempotent, never
overwrites a non-blank cell, and leaves unchanged (hence blank) every cell
of the range having no non-blank cell at or above it within the range. -/
theorem C4_forward_fill_properties (g : Grid) (col s e : Nat) :
    (∀ r c, (forward_fill_column_in_range
        (forward_fill_column_in_range g col s e) col s e).cell r c
      = (forward_fill_column_in_range g col s e).cell r c) ∧
    (∀ r c, isBlankOpt (g.cell r c) = false →
      (forward_fill_column_in_range g col s e).cell r c = g.cell r c) ∧
    (∀ r, s ≤ r → r ≤ e → (∀ j, s ≤ j → j ≤ r → isBlankOpt (g.cell j col) = true) →
      (forward_fill_column_in_range g col s e).cell r col = g.cell r col) := by
  have hnd : (List.range' s (e + 1 - s)).Nodup :=
    (List.pairwise_lt_range' s (e + 1 - s)).imp (fun h => Nat.ne_of_lt h)
  refine ⟨?_, ?_, ?_⟩
  · intro r c
    simp only [forward_fill_column_in_range]
    rw [ffill_idempotent col (List.range' s (e + 1 - s)) g.cell none hnd (Or.inl rfl)]
  · intro r c h
    simp only [forward_fill_column_in_range]
    exact ffill_nonblank_preserved col (List.range' s (e + 1 - s)) g.cell none r c h
  · intro r hs he hbl
    simp only [forward_fill_column_in_range]
    refine ffill_blank_prefix col (List.range' s (e + 1 - s)) g.cell r
      (List.pairwise_lt_range' s (e + 1 - s)) ?_
    intro j hj hle
    exact hbl j (List.mem_range'_1.1 hj).1 hle

/-- Witness for C4 on a concrete column: idempotence at a filled cell, a
non-blank cell kept, and an all-blank column left unchanged. -/
theorem C4_forward_fill_properties_witness :
    ((forward_fill_column_in_range (forward_fill_column_in_range exG4 2 1 5) 2 1 5).cell 3 2
      = (forward_fill_column_in_range exG4 2 1 5).cell 3 2) ∧
    ((forward_fill_column_in_range exG4 2 1 5).cell 4 2 = exG4.cell 4 2) ∧
    ((forward_fill_column_in_range exG4 1 1 5).cell 3 1 = exG4.cell 3 1) :=
  ⟨(C4_forward_fill_properties exG4 2 1 5).1 3 2,
   (C4_forward_fill_properties exG4 2 1 5).2.1 4 2 (by decide),
   (C4_forward_fill_properties exG4 1 1 5).2.2 3 (by decide) (by decide)
     (fun _ _ _ => rfl)⟩

/-- One flatten step leaves a cell of the target column unchanged when the
processed merge, if it is vertical in that column, does not span the cell's
row. -/
theorem flatten_step_cell_preserve (col r : Nat) (st : Grid) (m : Rect)
    (h : m.min_col = col → m.max_col = col → m.min_row < m.max_row →
      ¬(m.min_row ≤ r ∧ r ≤ m.max_row)) :
    (flatten_merge_step col st m).cell r col = st.cell r col := by
  by_cases hcond : m.min_col = col ∧ m.max_col = col ∧ m.min_row < m.max_row
  · have hr := h hcond.1 hcond.2.1 hcond.2.2
    simp only [flatten_merge_step, if_pos hcond]
    cases hval : st.cell m.min_row col with
    | none => rfl
    | some cv =>
      show (if (strTrim (cellStr cv) == "") = true then
          { st with merged_ranges := st.merged_ranges.erase m }
        else
          { st with cell := write_rows_in_column st.cell col m.min_row m.max_row cv,
                    merged_ranges := st.merged_ranges.erase m }).cell r col = st.cell r col
      by_cases hbl : (strTrim (cellStr cv) == "") = true
      · rw [if_pos hbl]
      · rw [if_neg hbl]
        show write_rows_in_column st.cell col m.min_row m.max_row cv r col = st.cell r col
        simp only [write_rows_in_column]
        rw [if_neg (fun hx => hr ⟨hx.2.1, hx.2.2⟩)]
  · simp only [flatten_merge_step, if_neg hcond]

/-- Folding flatten steps over merges that never cover row `r` in the target
column leaves that cell unchanged. -/
theorem flatten_fold_cell_preserve (col r : Nat) :
    ∀ (L : List Rect) (st : Grid),
      (∀ m ∈ L, m.min_col = col → m.max_col = col → m.min_row < m.max_row →
        ¬(m.min_row ≤ r ∧ r ≤ m.max_row)) →
      (L.foldl (flatten_merge_step col) st).cell r col = st.cell r col := by
  intro L
  induction L with
  | nil => intro st _; rfl
  | cons m L2 ih =>
    intro st h
    rw [List.foldl_cons,
      ih (flatten_merge_step col st m) (fun x hx => h x (List.mem_cons_of_mem m hx))]
    exact flatten_step_cell_preserve col r st m (h m (List.mem_cons_self m L2))

/-- Folding flatten steps over merges none of which is confined to the
target column is the identity. -/
theorem flatten_fold_skip (col : Nat) :
    ∀ (L : List Rect) (st : Grid),
      (∀ m ∈ L, ¬(m.min_col = col ∧ m.max_col = col)) →
      L.foldl (flatten_merge_step col) st = st := by
  intro L
  induction L with
  | nil => intro st _; rfl
  | cons m L2 ih =>
    intro st h
    rw [List.foldl_cons]
    have hnc : ¬(m.min_col = col ∧ m.max_col = col ∧ m.min_row < m.max_row) := by
      intro hc
      exact h m (List.mem_cons_self m L2) ⟨hc.1, hc.2.1⟩
    have hstep : flatten_merge_step col st m = st := by
      simp only [flatten_merge_step, if_neg hnc]
    rw [hstep]
    exact ih st (fun x hx => h x (List.mem_cons_of_mem m hx))

/-- C5 (amended): for a vertical merge confined to the target column whose
top cell value is non-blank, unmerge-and-propagate leaves every row of the
dissolved range holding that value (assuming the sheet invariant that merge
rectangles are pairwise disjoint); when the top value is blank or missing,
the merge is dissolved but nothing is written, so non-top rows stay empty;
and on a sheet with no merges confined to the target column it changes
nothing. -/
theorem C5_flatten_amended :
    (∀ (g : Grid) (col : Nat) (m : Rect) (cv : CellVal),
      g.merged_ranges.Pairwise Rect.disjoint →
      m ∈ g.merged_ranges → m.min_col = col → m.max_col = col →
      m.min_row < m.max_row →
      g.cell m.min_row col = some cv → isBlankOpt (some cv) = false →
      ∀ r, m.min_row ≤ r → r ≤ m.max_row →
        (flatten_vertical_merges_in_column g col).cell r col = some cv) ∧
    (∀ (g : Grid) (col : Nat),
      (∀ m ∈ g.merged_ranges, ¬(m.min_col = col ∧ m.max_col = col)) →
      flatten_vertical_merges_in_column g col = g) := by
  constructor
  · intro g col m cv hdisj hm hv1 hv2 hrow hval hnb r hr1 hr2
    obtain ⟨L1, L2, hsplit⟩ := List.append_of_mem hm
    have hpa := List.pairwise_append.1 (hsplit ▸ hdisj)
    unfold flatten_vertical_merges_in_column
    rw [hsplit, List.foldl_append, List.foldl_cons]
    have hcell1 : (List.foldl (flatten_merge_step col) g L1).cell m.min_row col
        = g.cell m.min_row col := by
      apply flatten_fold_cell_preserve
      intro x hx hxv1 hxv2 hxr
      have hd : Rect.disjoint x m := hpa.2.2 x hx m (List.mem_cons_self m L2)
      rcases hd with h | h | h | h
      · omega
      · omega
      · omega
      · omega
    have hbl : (strTrim (cellStr cv) == "") = false := by
      simpa [isBlankOpt] using hnb
    have hcond : m.min_col = col ∧ m.max_col = col ∧ m.min_row < m.max_row := ⟨hv1, hv2, hrow⟩
    have hst2 : (flatten_merge_step col (List.foldl (flatten_merge_step col) g L1) m).cell
        = write_rows_in_column (List.foldl (flatten_merge_step col) g L1).cell col
            m.min_row m.max_row cv := by
      simp only [flatten_merge_step, if_pos hcond]
      rw [hcell1, hval]
      show (if (strTrim (cellStr cv) == "") = true then
          { (List.foldl (flatten_merge_step col) g L1) with
              merged_ranges := (List.foldl (flatten_merge_step col) g L1).merged_ranges.erase m }
        else
          { (List.foldl (flatten_merge_step col) g L1) with
              cell := write_rows_in_column (List.foldl (flatten_merge_step col) g L1).cell col
                m.min_row m.max_row cv,
              merged_ranges :=
                (List.foldl (flatten_merge_step col) g L1).merged_ranges.erase m }).cell
        = write_rows_in_column (List.foldl (flatten_merge_step col) g L1).cell col
            m.min_row m.max_row cv
      rw [if_neg (by simp [hbl])]
    rw [flatten_fold_cell_preserve col r L2 _ ?_]
    · rw [hst2]
      simp [write_rows_in_column, hr1, hr2]
    · intro y hy hyv1 hyv2 hyr
      have hd : Rect.disjoint m y := (List.pairwise_cons.1 hpa.2.1).1 y hy
      rcases hd with h | h | h | h
      · omega
      · omega
      · omega
      · omega
  · intro g col h
    unfold flatten_vertical_merges_in_column
    exact flatten_fold_skip col g.merged_ranges g h

/-- C5 counterexample: a vertical merge in the target column whose top cell
holds only whitespace is dissolved without propagation, so not every row of
the dissolved range holds the top cell's value (row 2 reads `none` while the
top holds " "). -/
theorem C5_flatten_counterexample :
    ¬ (∀ r, 1 ≤ r → r ≤ 2 →
      (flatten_vertical_merges_in_column exG5c 1).cell r 1 = exG5c.cell 1 1) := by
  intro h
  have h2 := h 2 (by decide) (by decide)
  revert h2
  decide

/-- Witness for C5 on concrete sheets: the non-blank merge value reaches
row 2, and a sheet without merges is unchanged. -/
theorem C5_flatten_amended_witness :
    ((flatten_vertical_merges_in_column exG5 1).cell 2 1 = some (CellVal.s "V")) ∧
    flatten_vertical_merges_in_column exG5b 1 = exG5b :=
  ⟨C5_flatten_amended.1 exG5 1 ⟨1, 2, 1, 1⟩ (CellVal.s "V") (by simp [exG5])
      (by decide) rfl rfl (by decide) rfl (by decide) 2 (by decide) (by decide),
   C5_flatten_amended.2 exG5b 1 (by intro m hm; simp [exG5b] at hm)⟩

/-- One emission step agrees with the claim's per-row description whenever
the integer coercions of the row raise no exception. -/
theorem emit_row_eq_claimed (g : Grid) (col_no col_part col_desc col_qty : Nat)
    (pkg_name category : String) (r : Nat)
    (h : ¬(isBlankOpt (g.cell r col_part) = true ∧ isBlankOpt (g.cell r col_desc) = true) →
      (∃ v, to_int_or_none (g.cell r col_no) = .ok v) ∧
      (∃ w, to_int_or_none (g.cell r col_qty) = .ok w)) :
    emit_row g col_no col_part col_desc col_qty pkg_name category r
      = .ok (claimed_row_emission g col_no col_part col_desc col_qty pkg_name category r) := by
  by_cases hblank : isBlankOpt (g.cell r col_part) = true ∧ isBlankOpt (g.cell r col_desc) = true
  · simp only [emit_row, if_pos hblank, claimed_row_emission]
    split
    · rw [if_neg]
      intro hc
      rcases hc with hc | hc
      · rw [hblank.1] at hc
        exact absurd hc (by decide)
      · rw [hblank.2] at hc
        exact absurd hc (by decide)
    · rfl
  · obtain ⟨⟨v, hv⟩, ⟨w, hw⟩⟩ := h hblank
    have hcond : isBlankOpt (g.cell r col_part) = false ∨ isBlankOpt (g.cell r col_desc) = false := by
      cases hp : isBlankOpt (g.cell r col_part) with
      | false => exact Or.inl rfl
      | true =>
        cases hd : isBlankOpt (g.cell r col_desc) with
        | false => exact Or.inr rfl
        | true => exact absurd ⟨hp, hd⟩ hblank
    simp only [emit_row, if_neg hblank, claimed_row_emission, hv, hw]
    cases v with
    | none => rfl
    | some n =>
      show Except.ok (some (⟨pkg_name, some n, opt_str (g.cell r col_part),
          opt_str (g.cell r col_desc), w, category⟩ : OutRow))
        = Except.ok (if isBlankOpt (g.cell r col_part) = false
              ∨ isBlankOpt (g.cell r col_desc) = false then
            some (⟨pkg_name, some n, opt_str (g.cell r col_part),
              opt_str (g.cell r col_desc), w, category⟩ : OutRow)
          else none)
      rw [if_pos hcond]

/-- C6 (amended): over any data-row range none of whose rows raises an
exception in the sequence-number or quantity coercion, the emitted records
are exactly the rows satisfying the claim's condition — a row produces a
record iff its part or description cell is non-blank and its sequence number
coerces to an integer, and a failed quantity coercion yields a null quantity
instead of excluding the row. (Unconditionally the claim is false: an
infinite sequence-number or quantity cell such as "inf" raises an uncaught
OverflowError, aborting emission, so even later valid rows produce no
records — see the counterexample.) -/
theorem C6_emission_amended (g : Grid) (col_no col_part col_desc col_qty : Nat)
    (pkg_name category : String) :
    ∀ rows : List Nat,
      (∀ r ∈ rows,
        ¬(isBlankOpt (g.cell r col_part) = true ∧ isBlankOpt (g.cell r col_desc) = true) →
        (∃ v, to_int_or_none (g.cell r col_no) = .ok v) ∧
        (∃ w, to_int_or_none (g.cell r col_qty) = .ok w)) →
      emit_rows g col_no col_part col_desc col_qty pkg_name category rows
        = .ok (rows.filterMap
            (claimed_row_emission g col_no col_part col_desc col_qty pkg_name category)) := by
  intro rows
  induction rows with
  | nil => intro _; rfl
  | cons r rest ih =>
    intro h
    simp only [emit_rows]
    rw [emit_row_eq_claimed g col_no col_part col_desc col_qty pkg_name category r
      (h r (List.mem_cons_self r rest))]
    rw [List.filterMap_cons]
    cases hc : claimed_row_emission g col_no col_part col_desc col_qty pkg_name category r with
    | none =>
      exact ih (fun x hx => h x (List.mem_cons_of_mem r hx))
    | some rec =>
      rw [ih (fun x hx => h x (List.mem_cons_of_mem r hx))]

/-- C6 counterexample: with "inf" in the sequence-number cell of row 1,
emission of the range `[1, 2]` raises an uncaught OverflowError and produces
no records at all, although row 2 satisfies the claim's condition and should
have produced a record according to the claimed iff. -/
theorem C6_emission_counterexample :
    emit_rows exG6 2 3 4 5 "P" "" [1, 2] = .error .overflowError ∧
      claimed_row_emission exG6 2 3 4 5 "P" "" 2
        = some ⟨"P", some 1, "Y", "", none, ""⟩ := by
  exact ⟨by decide, by decide⟩

/-- Witness for C6 (amended) on the well-behaved row 2 of `exG6`. -/
theorem C6_emission_amended_witness :
    emit_rows exG6 2 3 4 5 "P" "" [2]
      = .ok ([2].filterMap (claimed_row_emission exG6 2 3 4 5 "P" "")) :=
  C6_emission_amended exG6 2 3 4 5 "P" "" [2] (by
    intro r hr hnb
    simp at hr
    subst hr
    exact ⟨⟨some 1, by decide⟩, ⟨none, by decide⟩⟩)

/-- C7 (documents the code bug): the integer coercion does not return an
integer or None for every input — a cell whose text parses as an infinite
float (such as "inf", or an overflowing literal like "1e400") makes
`int(float(text))` raise OverflowError, which the source's
`except (ValueError, TypeError)` does not catch, so the exception escapes
and aborts record emission; blank and non-numeric cells are indeed coerced
to None and silently skipped. -/
theorem C7_to_int_or_none_overflow :
    to_int_or_none (some (CellVal.s "inf")) = .error PyErr.overflowError ∧
    to_int_or_none (some (CellVal.s "-Infinity")) = .error PyErr.overflowError ∧
    emit_rows exG6 2 3 4 5 "P" "" [1, 2] = .error PyErr.overflowError ∧
    to_int_or_none (some (CellVal.s "abc")) = .ok none ∧
    to_int_or_none (some (CellVal.s "  ")) = .ok none ∧
    to_int_or_none (some (CellVal.s "nan")) = .ok none ∧
    to_int_or_none none = .ok none ∧
    to_int_or_none (some (CellVal.s "3.9")) = .ok (some 3) := by
  exact ⟨by decide, by decide, by decide, by decide, by decide, by decide, by decide, by decide⟩

/-- Replacing package `i` by one whose linked images are exactly the fresh
index `idx` preserves the linking invariants, advancing the freshness bound. -/
theorem linked_inv_set (ps : List Package) (idx i : Nat) (pkg2 : Package)
    (hpkg2 : all_linked pkg2 = [idx])
    (h1 : ∀ j (hj : j < ps.length), (all_linked (ps.get ⟨j, hj⟩)).length ≤ 1)
    (h2 : ∀ j (hj : j < ps.length), ∀ n ∈ all_linked (ps.get ⟨j, hj⟩), n < idx)
    (h3 : ImagesDisjoint ps) :
    (∀ j (hj : j < (ps.set i pkg2).length),
      (all_linked ((ps.set i pkg2).get ⟨j, hj⟩)).length ≤ 1) ∧
    (∀ j (hj : j < (ps.set i pkg2).length),
      ∀ n ∈ all_linked ((ps.set i pkg2).get ⟨j, hj⟩), n < idx + 1) ∧
    ImagesDisjoint (ps.set i pkg2) := by
  have hget : ∀ j (hj : j < (ps.set i pkg2).length),
      (ps.set i pkg2).get ⟨j, hj⟩
        = if i = j then pkg2 else ps.get ⟨j, by simpa using hj⟩ := by
    intro j hj
    simp [List.get_eq_getElem, List.getElem_set]
  refine ⟨?_, ?_, ?_⟩
  · intro j hj
    rw [hget j hj]
    by_cases hij : i = j
    · rw [if_pos hij, hpkg2]
      simp
    · rw [if_neg hij]
      exact h1 j (by simpa using hj)
  · intro j hj n hn
    rw [hget j hj] at hn
    by_cases hij : i = j
    · rw [if_pos hij, hpkg2] at hn
      simp at hn
      omega
    · rw [if_neg hij] at hn
      have := h2 j (by simpa using hj) n hn
      omega
  · intro j k hj hk hjk n hn
    rw [hget j hj] at hn
    rw [hget k hk]
    by_cases hij : i = j
    · rw [if_pos hij, hpkg2] at hn
      simp at hn
      rw [if_neg (show ¬ i = k by omega)]
      intro hk2
      have := h2 k (by simpa using hk) n hk2
      omega
    · rw [if_neg hij] at hn
      by_cases hik : i = k
      · rw [if_pos hik, hpkg2]
        have := h2 j (by simpa using hj) n hn
        simp
        omega
      · rw [if_neg hik]
        exact h3 j k (by simpa using hj) (by simpa using hk) hjk n hn

/-- One linking step either leaves the package list unchanged, or links the
fresh index into a package that had no image yet (in `images` for a cell
anchor, `abs_images` for an absolute anchor). -/
theorem map_step_cases (ps : List Package) (un : List Nat) (idx : Nat) (a : Anchor) :
    (map_images_step ps un idx a).1 = ps ∨
    ∃ i pkg, ps[i]? = some pkg ∧ pkg.images = [] ∧ pkg.abs_images = [] ∧
      ((map_images_step ps un idx a).1
          = ps.set i { pkg with images := pkg.images ++ [idx] } ∨
        (map_images_step ps un idx a).1
          = ps.set i { pkg with abs_images := pkg.abs_images ++ [idx] }) := by
  cases a with
  | cell_anchor row0 =>
    cases hf : find_package_for_row ps (row0 + 1) with
    | none => left; simp [map_images_step, hf]
    | some i =>
      cases hg : ps[i]? with
      | none => left; simp [map_images_step, hf, hg]
      | some pkg =>
        by_cases hocc : pkg.images ≠ [] ∨ pkg.abs_images ≠ []
        · left; simp [map_images_step, hf, hg, if_pos hocc]
        · right
          have he1 : pkg.images = [] := by
            rcases not_or.1 hocc with ⟨h1, _⟩
            exact not_not.1 h1
          have he2 : pkg.abs_images = [] := by
            rcases not_or.1 hocc with ⟨_, h2⟩
            exact not_not.1 h2
          exact ⟨i, pkg, hg, he1, he2, Or.inl (by simp [map_images_step, hf, hg, if_neg hocc])⟩
  | cell_anchor_missing_from => left; simp [map_images_step]
  | absolute_anchor y cy =>
    cases hf : find_package_for_y_center ps (y + cy / 2) with
    | none => left; simp [map_images_step, hf]
    | some i =>
      cases hg : ps[i]? with
      | none => left; simp [map_images_step, hf, hg]
      | some pkg =>
        by_cases hocc : pkg.images ≠ [] ∨ pkg.abs_images ≠ []
        · left; simp [map_images_step, hf, hg, if_pos hocc]
        · right
          have he1 : pkg.images = [] := by
            rcases not_or.1 hocc with ⟨h1, _⟩
            exact not_not.1 h1
          have he2 : pkg.abs_images = [] := by
            rcases not_or.1 hocc with ⟨_, h2⟩
            exact not_not.1 h2
          exact ⟨i, pkg, hg, he1, he2, Or.inr (by simp [map_images_step, hf, hg, if_neg hocc])⟩
  | absolute_anchor_incomplete => left; simp [map_images_step]
  | other_anchor => left; simp [map_images_step]

/-- One linking step preserves the linking invariants, advancing the
freshness bound by one. -/
theorem map_step_inv (ps : List Package) (un : List Nat) (idx : Nat) (a : Anchor)
    (h1 : ∀ j (hj : j < ps.length), (all_linked (ps.get ⟨j, hj⟩)).length ≤ 1)
    (h2 : ∀ j (hj : j < ps.length), ∀ n ∈ all_linked (ps.get ⟨j, hj⟩), n < idx)
    (h3 : ImagesDisjoint ps) :
    (∀ j (hj : j < (map_images_step ps un idx a).1.length),
      (all_linked ((map_images_step ps un idx a).1.get ⟨j, hj⟩)).length ≤ 1) ∧
    (∀ j (hj : j < (map_images_step ps un idx a).1.length),
      ∀ n ∈ all_linked ((map_images_step ps un idx a).1.get ⟨j, hj⟩), n < idx + 1) ∧
    ImagesDisjoint (map_images_step ps un idx a).1 := by
  rcases map_step_cases ps un idx a with hsame | ⟨i, pkg, hg, he1, he2, hset⟩
  · rw [hsame]
    exact ⟨h1, fun j hj n hn => Nat.lt_succ_of_lt (h2 j hj n hn), h3⟩
  · rcases hset with hset | hset
    · rw [hset]
      exact linked_inv_set ps idx i _ (by simp [all_linked, he1, he2]) h1 h2 h3
    · rw [hset]
      exact linked_inv_set ps idx i _ (by simp [all_linked, he1, he2]) h1 h2 h3

/-- The linking loop preserves the linking invariants, with the freshness
bound advanced by the number of processed images. -/
theorem map_loop_inv :
    ∀ (imgs : List Anchor) (ps : List Package) (un : List Nat) (idx : Nat),
      (∀ j (hj : j < ps.length), (all_linked (ps.get ⟨j, hj⟩)).length ≤ 1) →
      (∀ j (hj : j < ps.length), ∀ n ∈ all_linked (ps.get ⟨j, hj⟩), n < idx) →
      ImagesDisjoint ps →
      (∀ j (hj : j < (map_images_loop ps un idx imgs).1.length),
        (all_linked ((map_images_loop ps un idx imgs).1.get ⟨j, hj⟩)).length ≤ 1) ∧
      (∀ j (hj : j < (map_images_loop ps un idx imgs).1.length),
        ∀ n ∈ all_linked ((map_images_loop ps un idx imgs).1.get ⟨j, hj⟩),
          n < idx + imgs.length) ∧
      ImagesDisjoint (map_images_loop ps un idx imgs).1 := by
  intro imgs
  induction imgs with
  | nil =>
    intro ps un idx h1 h2 h3
    exact ⟨h1, fun j hj n hn => by have := h2 j hj n hn; omega, h3⟩
  | cons a rest ih =>
    intro ps un idx h1 h2 h3
    have hstep := map_step_inv ps un idx a h1 h2 h3
    have hrec := ih (map_images_step ps un idx a).1 (map_images_step ps un idx a).2
      (idx + 1) hstep.1 hstep.2.1 hstep.2.2
    refine ⟨hrec.1, ?_, hrec.2.2⟩
    intro j hj n hn
    have := hrec.2.1 j hj n hn
    simp only [List.length_cons]
    omega

/-- C8: starting from packages with no linked images, after image linking
every package holds at most one linked image, and no image index is linked
to two different packages. -/
theorem C8_image_linking (images : List Anchor) (packages : List Package)
    (hinit : ∀ p ∈ packages, p.images = [] ∧ p.abs_images = []) :
    (∀ p ∈ (map_images_to_packages images packages).1, (all_linked p).length ≤ 1) ∧
    ImagesDisjoint (map_images_to_packages images packages).1 := by
  have h1 : ∀ j (hj : j < packages.length),
      (all_linked (packages.get ⟨j, hj⟩)).length ≤ 1 := by
    intro j hj
    have hm := hinit (packages.get ⟨j, hj⟩) (List.get_mem packages j hj)
    simp only [all_linked]
    rw [hm.1, hm.2]
    decide
  have h2 : ∀ j (hj : j < packages.length),
      ∀ n ∈ all_linked (packages.get ⟨j, hj⟩), n < 0 := by
    intro j hj n hn
    have hm := hinit (packages.get ⟨j, hj⟩) (List.get_mem packages j hj)
    rw [all_linked, hm.1, hm.2] at hn
    simp at hn
  have h3 : ImagesDisjoint packages := by
    intro j k hj hk hjk n hn
    have hm := hinit (packages.get ⟨j, hj⟩) (List.get_mem packages j hj)
    rw [all_linked, hm.1, hm.2] at hn
    simp at hn
  have main := map_loop_inv images packages [] 0 h1 h2 h3
  refine ⟨?_, main.2.2⟩
  intro p hp
  obtain ⟨k, hk⟩ := List.mem_iff_get.1 hp
  rw [← hk]
  exact main.1 k.1 k.2

/-- Witness for C8: one concrete linking run with two images aimed at the
same package keeps a single linked image on it. -/
theorem C8_image_linking_witness :
    (all_linked (⟨"P", 1, 5, some 0, some 100, [0], [], none⟩ : Package)).length ≤ 1 :=
  (C8_image_linking [.cell_anchor 0, .cell_anchor 1] [exPkgLink] (by decide)).1
    ⟨"P", 1, 5, some 0, some 100, [0], [], none⟩ (by decide)


/-- C9 counterexample: two cell-anchored images both resolve to the single
package `exPkgLink`; only the first (index 0) is linked, and the unmatched
list is empty — the second image (index 1) does NOT appear in it, refuting
the claim that it would. -/
theorem C9_second_image_counterexample :
    map_images_to_packages [.cell_anchor 0, .cell_anchor 1] [exPkgLink]
      = ([⟨"P", 1, 5, some 0, some 100, [0], [], none⟩], []) := by
  decide

/-- C9 (amended): when an image resolves to a section that already holds a
linked image, the linker discards it entirely — the packages are unchanged
and the image is NOT added to the unmatched list (the unmatched list only
ever receives images that resolve to no section or have unusable anchors);
only the first image in document order stays linked. -/
theorem C9_second_image_amended :
    (∀ (ps : List Package) (un : List Nat) (idx row0 i : Nat) (pkg : Package),
      find_package_for_row ps (row0 + 1) = some i →
      ps[i]? = some pkg →
      (pkg.images ≠ [] ∨ pkg.abs_images ≠ []) →
      map_images_step ps un idx (.cell_anchor row0) = (ps, un)) ∧
    (∀ (ps : List Package) (un : List Nat) (idx : Nat) (y cy : ℚ) (i : Nat) (pkg : Package),
      find_package_for_y_center ps (y + cy / 2) = some i →
      ps[i]? = some pkg →
      (pkg.images ≠ [] ∨ pkg.abs_images ≠ []) →
      map_images_step ps un idx (.absolute_anchor y cy) = (ps, un)) := by
  constructor
  · intro ps un idx row0 i pkg hf hg hocc
    simp [map_images_step, hf, hg, if_pos hocc]
  · intro ps un idx y cy i pkg hf hg hocc
    simp [map_images_step, hf, hg, if_pos hocc]

/-- Witness for C9 (amended): a cell-anchored and an absolute-anchored image
each resolving to the already-occupied package are discarded without
touching the unmatched list. -/
theorem C9_second_image_amended_witness :
    map_images_step [exPkgOcc] [] 1 (.cell_anchor 0) = ([exPkgOcc], []) ∧
    map_images_step [exPkgOcc] [] 1 (.absolute_anchor 10 0) = ([exPkgOcc], []) :=
  ⟨C9_second_image_amended.1 [exPkgOcc] [] 1 0 0 exPkgOcc (by decide) (by decide)
      (by decide),
   C9_second_image_amended.2 [exPkgOcc] [] 1 10 0 0 exPkgOcc
      (by rw [show (10 : ℚ) + 0 / 2 = 10 by norm_num]; decide) (by decide) (by decide)⟩
